import Mathlib

/-!
Shallow embedding of the codebase-time-machine history-indexing pipeline:
the relational store (`db.py`), the ownership aggregator (`analysis.py`)
and the indexing orchestrator (`git_indexer.py`).

The SQLite database file is modelled as a structure of table contents plus
the per-table rowid counters that SQLite maintains, and a connection is the
database together with the connection-scoped `sqlite3_last_insert_rowid`
value.  That value matters because `upsert_file` reads `cur.lastrowid`
after an `INSERT OR IGNORE`: in CPython's sqlite3 binding an ignored insert
leaves the connection-level last-insert rowid unchanged, so `cur.lastrowid`
then reports the rowid of the *previous* successful insert on the same
connection (and `0` on a connection that has not inserted anything yet).
This behaviour was confirmed against CPython 3.11 / SQLite and is embedded
faithfully below.

External collaborators are parameters, following the contracts the code
consumes: the VCS reader supplies, per commit, the diff entries of
`c.diff(parent)` (change type, pre-change path `a_path`, post-change path
`b_path`, optional post-change blob `b_blob`) and the per-path stats of
`c.stats.files`; the optional complexity analyzer is a function that may
throw (`Except.error`), return nothing (`Except.ok none`, the unavailable
or falsy-result case) or return a summary; the regex engine used for the
feature patterns is a function from pattern and message to the list of
extracted reference strings, in match order.
-/

/-- Row of the `commits` table (`db.py` SCHEMA_SQL): `id TEXT PRIMARY KEY`
plus author name, author email, authored date and message.  The indexer
always stores `c.authored_date` (an integer), so the date is an `Int`. -/
structure CommitRow where
  id : String
  author_name : String
  author_email : String
  authored_date : Int
  message : String
deriving Repr, DecidableEq

/-- Row of the `files` table: `id INTEGER PRIMARY KEY AUTOINCREMENT`,
`path TEXT UNIQUE`.  `path` is nullable in SQLite, hence `Option`. -/
structure FileRow where
  id : Nat
  path : Option String
deriving Repr, DecidableEq

/-- Row of the `commit_files` table.  `additions` and `deletions` are
nullable integer columns (the aggregation query wraps them in
`COALESCE(..., 0)`), `is_binary` is the integer 0/1 the indexer stores. -/
structure CommitFileRow where
  commit_id : String
  file_id : Nat
  additions : Option Int
  deletions : Option Int
  change_type : String
  old_path : Option String
  new_path : Option String
  is_binary : Nat
deriving Repr, DecidableEq

/-- Row of the derived `ownership` table, keyed by (file_id, author_email).
`first_commit` and `last_commit` hold SQL `MIN` / `MAX` aggregates, which
are NULL on an empty group, hence `Option Int`. -/
structure OwnershipRow where
  file_id : Nat
  author_email : String
  commits : Nat
  lines_added : Int
  lines_deleted : Int
  first_commit : Option Int
  last_commit : Option Int
deriving Repr, DecidableEq

/-- Row of the `complexity` table, keyed by (file_id, commit_id). -/
structure ComplexityRow where
  file_id : Nat
  commit_id : String
  nloc : Int
  ccn : Int
  functions : Nat
deriving Repr, DecidableEq

/-- Row of the append-only `features` table. -/
structure FeatureRow where
  commit_id : String
  type : String
  reference : String
deriving Repr, DecidableEq

/-- The SQLite database file: the seven tables of the schema together with
the rowid bookkeeping SQLite keeps per table.  `fileSeq` is the
AUTOINCREMENT sequence of `files`; the other counters model the implicit
rowids of `commits`, `commit_files`, `complexity` and `features` as
monotone counters, which coincides with SQLite's max-rowid-plus-one
assignment because the pipeline never deletes rows from those tables.
The `ownership` table's implicit rowid is not tracked: `compute_ownership`
runs on a fresh connection and nothing ever reads a rowid of that table. -/
structure DB where
  repo_meta : List (String × String)
  commits : List CommitRow
  commitsRowid : Nat
  files : List FileRow
  fileSeq : Nat
  commit_files : List CommitFileRow
  cfRowid : Nat
  complexity : List ComplexityRow
  cxRowid : Nat
  features : List FeatureRow
  ftRowid : Nat
  ownership : List OwnershipRow
deriving Repr, DecidableEq

/-- The empty database file, as created by `init_db` on first use. -/
def DB.empty : DB :=
  { repo_meta := [], commits := [], commitsRowid := 0, files := [], fileSeq := 0,
    commit_files := [], cfRowid := 0, complexity := [], cxRowid := 0,
    features := [], ftRowid := 0, ownership := [] }

/-- An sqlite3 connection: the database plus the connection-scoped
`sqlite3_last_insert_rowid` value, which starts at 0 and is updated only by
successful row insertions (ignored `INSERT OR IGNORE` rows and the update
arm of an upsert leave it unchanged). -/
structure Conn where
  db : DB
  lastInsertRowid : Nat
deriving Repr, DecidableEq

/-- Model of `db.connect`: a fresh connection to the database file. -/
def connect (db : DB) : Conn := { db := db, lastInsertRowid := 0 }

/-- Model of `db.init_db`: `CREATE TABLE IF NOT EXISTS ...` is idempotent
and the tables are structurally always present here, so it is the
identity on the modelled state. -/
def init_db (db : DB) : DB := db

/-- Model of `db.upsert_file`.  Line by line:
`INSERT OR IGNORE INTO files(path) VALUES (?)`; if `cur.lastrowid` is
truthy return it; otherwise `SELECT id FROM files WHERE path=?`.
A successful insert assigns the next AUTOINCREMENT id and sets the
connection's last-insert rowid to it; an ignored insert (the path is
already present) leaves the connection's last-insert rowid unchanged, so
the `if cur.lastrowid:` branch returns that stale value whenever it is
non-zero and only falls back to the correct `SELECT` on a connection with
no prior successful insert.  A NULL path never conflicts with the UNIQUE
constraint in SQLite and is therefore always inserted. -/
def upsert_file (conn : Conn) (path : Option String) : Nat × Conn :=
  let insertNew : Nat × Conn :=
    let rid := conn.db.fileSeq + 1
    let row : FileRow := { id := rid, path := path }
    let db2 := { conn.db with files := conn.db.files ++ [row], fileSeq := rid }
    (rid, { conn with db := db2, lastInsertRowid := rid })
  match path with
  | none => insertNew
  | some p =>
    if conn.db.files.any (fun f => decide (f.path = some p)) then
      if conn.lastInsertRowid ≠ 0 then
        (conn.lastInsertRowid, conn)
      else
        (((conn.db.files.find? (fun f => decide (f.path = some p))).map FileRow.id).getD 0,
          conn)
    else insertNew

/-- Model of `db.set_meta`: `INSERT INTO repo_meta ... ON CONFLICT(key) DO
UPDATE SET value=excluded.value`, acting on the stored table.  (The
connection used for it in `GitIndexer.index` is discarded immediately
afterwards, so its effect on that connection's last-insert rowid is
irrelevant and not tracked.) -/
def set_meta (db : DB) (key value : String) : DB :=
  if db.repo_meta.any (fun kv => decide (kv.1 = key)) then
    { db with repo_meta := db.repo_meta.map (fun kv => if kv.1 = key then (key, value) else kv) }
  else
    { db with repo_meta := db.repo_meta ++ [(key, value)] }

/-- One row of the `executemany` in `db.bulk_insert_commits`:
`INSERT OR IGNORE INTO commits(...)`.  A duplicate primary key is ignored
(no failure, connection state untouched); otherwise the row is appended
and the connection's last-insert rowid becomes the new implicit rowid. -/
def insert_commit_row (conn : Conn) (r : CommitRow) : Conn :=
  if conn.db.commits.any (fun c => decide (c.id = r.id)) then conn
  else
    let rid := conn.db.commitsRowid + 1
    { conn with
      db := { conn.db with commits := conn.db.commits ++ [r], commitsRowid := rid },
      lastInsertRowid := rid }

/-- Model of `db.bulk_insert_commits` (`executemany` over the rows). -/
def bulk_insert_commits (conn : Conn) (rows : List CommitRow) : Conn :=
  rows.foldl insert_commit_row conn

/-- One row of the `executemany` in `db.bulk_insert_commit_files`: an
unconditional `INSERT INTO commit_files`. -/
def insert_commit_file_row (conn : Conn) (r : CommitFileRow) : Conn :=
  let rid := conn.db.cfRowid + 1
  { conn with
    db := { conn.db with commit_files := conn.db.commit_files ++ [r], cfRowid := rid },
    lastInsertRowid := rid }

/-- Model of `db.bulk_insert_commit_files`. -/
def bulk_insert_commit_files (conn : Conn) (rows : List CommitFileRow) : Conn :=
  rows.foldl insert_commit_file_row conn

/-- One row of the `executemany` in `db.bulk_insert_features`: an
unconditional `INSERT INTO features`. -/
def insert_feature_row (conn : Conn) (r : FeatureRow) : Conn :=
  let rid := conn.db.ftRowid + 1
  { conn with
    db := { conn.db with features := conn.db.features ++ [r], ftRowid := rid },
    lastInsertRowid := rid }

/-- Model of `db.bulk_insert_features`. -/
def bulk_insert_features (conn : Conn) (rows : List FeatureRow) : Conn :=
  rows.foldl insert_feature_row conn

/-- One row of the `executemany` in `db.bulk_insert_complexity`:
`INSERT OR REPLACE INTO complexity` keyed by (file_id, commit_id) — any
existing row with the same key is deleted and the new row inserted. -/
def insert_complexity_row (conn : Conn) (r : ComplexityRow) : Conn :=
  let rid := conn.db.cxRowid + 1
  { conn with
    db := { conn.db with
            complexity :=
              (conn.db.complexity.filter
                (fun x => decide (¬ (x.file_id = r.file_id ∧ x.commit_id = r.commit_id)))) ++ [r],
            cxRowid := rid },
    lastInsertRowid := rid }

/-- Model of `db.bulk_insert_complexity`. -/
def bulk_insert_complexity (conn : Conn) (rows : List ComplexityRow) : Conn :=
  rows.foldl insert_complexity_row conn

/-- SQL `MIN` over an integer column of a row group (NULL iff empty). -/
def sqlMinInt : List Int → Option Int
  | [] => none
  | x :: xs => some (xs.foldl min x)

/-- SQL `MAX` over an integer column of a row group (NULL iff empty). -/
def sqlMaxInt : List Int → Option Int
  | [] => none
  | x :: xs => some (xs.foldl max x)

/-- The inner join of the ownership query in `analysis.compute_ownership`:
`FROM commit_files cf JOIN commits c ON c.id = cf.commit_id` — every pair
of a change row and a commit row whose primary key matches its
`commit_id`. -/
def sqlJoin (db : DB) : List (CommitFileRow × CommitRow) :=
  db.commit_files.flatMap (fun cf =>
    (db.commits.filter (fun c => decide (c.id = cf.commit_id))).map (fun c => (cf, c)))

/-- The `GROUP BY cf.file_id, c.author_email` keys of the ownership
query: the distinct (file_id, author_email) pairs of the joined rows. -/
def ownershipKeys (db : DB) : List (Nat × String) :=
  ((sqlJoin db).map (fun rc => (rc.1.file_id, rc.2.author_email))).dedup

/-- The joined rows belonging to one group key. -/
def ownershipGroup (db : DB) (k : Nat × String) : List (CommitFileRow × CommitRow) :=
  (sqlJoin db).filter (fun rc => decide (rc.1.file_id = k.1 ∧ rc.2.author_email = k.2))

/-- The aggregated `SELECT` row for one group:
`COUNT(DISTINCT cf.commit_id)`, `SUM(COALESCE(cf.additions,0))`,
`SUM(COALESCE(cf.deletions,0))`, `MIN(c.authored_date)`,
`MAX(c.authored_date)`. -/
def ownershipRowFor (db : DB) (k : Nat × String) : OwnershipRow :=
  let g := ownershipGroup db k
  { file_id := k.1
    author_email := k.2
    commits := ((g.map (fun rc => rc.1.commit_id)).dedup).length
    lines_added := (g.map (fun rc => rc.1.additions.getD 0)).sum
    lines_deleted := (g.map (fun rc => rc.1.deletions.getD 0)).sum
    first_commit := sqlMinInt (g.map (fun rc => rc.2.authored_date))
    last_commit := sqlMaxInt (g.map (fun rc => rc.2.authored_date)) }

/-- All rows produced by the aggregation `INSERT INTO ownership SELECT ...
GROUP BY cf.file_id, c.author_email`. -/
def ownershipAggRows (db : DB) : List OwnershipRow :=
  (ownershipKeys db).map (ownershipRowFor db)

/-- The committed state after the first half of
`analysis.compute_ownership`: the code executes `DELETE FROM ownership`
and then immediately `conn.commit()`, so the emptied ownership table is
durably committed — and visible to readers — before the aggregation
insert runs in a separate transaction. -/
def compute_ownership_after_delete (db : DB) : DB :=
  { db with ownership := [] }

/-- Model of `analysis.compute_ownership`: delete all ownership rows and
commit, then insert the recomputed aggregate rows and commit. -/
def compute_ownership (db : DB) : DB :=
  let mid := compute_ownership_after_delete db
  { mid with ownership := ownershipAggRows mid }

/-- Post-change blob of a diff entry (`d.b_blob`): its binary
classification and its decoded text (`data_stream.read().decode(errors
set to ignore)`). -/
structure Blob where
  is_binary : Bool
  data : String
deriving Repr, DecidableEq

/-- One entry of `c.diff(parent)` as consumed by `GitIndexer.index`,
per the VCS-reader contract: change type, pre-change path `a_path`,
post-change path `b_path`, optional post-change blob. -/
structure DiffEntry where
  change_type : String
  a_path : Option String
  b_path : Option String
  b_blob : Option Blob
deriving Repr, DecidableEq

/-- One commit record as enumerated by the VCS reader, bundling the fields
`GitIndexer.index` reads: identity and metadata, the diff entries against
the first parent, and the per-path `c.stats.files` mapping
(path, insertions, deletions). -/
structure CommitRec where
  hexsha : String
  author_name : String
  author_email : String
  authored_date : Int
  message : String
  diffs : List DiffEntry
  stats : List (String × Int × Int)
deriving Repr, DecidableEq

/-- Summary returned by a successful run of the external complexity
analyzer: reported `nloc` and the per-function cyclomatic complexities
(the indexer stores their count and their sum). -/
structure AnalyzerResult where
  nloc : Int
  function_ccns : List Int
deriving Repr, DecidableEq

/-- The `analyze_code_string` capability of `git_indexer.py`: called with
the effective path and the decoded post-change text, it may raise
(`Except.error`, caught by the per-file `try`), return a falsy result
(`Except.ok none`, which is what the fallback stub always returns when
lizard is unavailable, and which fails the `if result:` test), or return a
summary. -/
abbrev Analyzer := Option String → String → Except Unit (Option AnalyzerResult)

/-- Python `str.upper()` restricted to ASCII, which covers the
single-letter git change types the code upcases. -/
def pyUpper (s : String) : String :=
  String.mk (s.data.map Char.toUpper)

/-- Python `str.lower()` restricted to ASCII. -/
def pyLower (s : String) : String :=
  String.mk (s.data.map Char.toLower)

/-- Whether `pat` is a prefix of the character list. -/
def startsWithChars : List Char → List Char → Bool
  | [], _ => true
  | _ :: _, [] => false
  | a :: xs, b :: ys => a == b && startsWithChars xs ys

/-- Whether `pat` occurs as a contiguous sublist. -/
def containsChars (pat : List Char) : List Char → Bool
  | [] => pat.isEmpty
  | b :: rest => startsWithChars pat (b :: rest) || containsChars pat rest

/-- Python substring containment `needle in hay`. -/
def pyContains (hay needle : String) : Bool :=
  containsChars needle.data hay.data

/-- The `FEATURE_PATTERNS` of `git_indexer.py`: the regex source strings,
which the code also stores as the `type` column of emitted feature rows. -/
def FEATURE_PATTERNS : List String :=
  ["fixe?s?\\s+#(?P<num>\\d+)",
   "close[sd]?\\s+#(?P<num>\\d+)",
   "(?P<jira>[A-Z][A-Z0-9]+-\\d+)"]

/-- The `WHY_KEYWORDS` rationale vocabulary of `git_indexer.py`. -/
def WHY_KEYWORDS : List String :=
  ["why", "because", "reason", "motivation", "rfc", "design", "introduc", "decision"]

/-- The feature rows `GitIndexer.index` buffers for one commit: for every
pattern, one row per regex match carrying the pattern source string and
the extracted reference (the regex engine is the `matcher` parameter,
returning the extracted reference strings in match order), followed by at
most one `why_marker` row, emitted iff the lower-cased message contains
any `WHY_KEYWORDS` entry. -/
def featureRows (matcher : String → String → List String) (c : CommitRec) : List FeatureRow :=
  (FEATURE_PATTERNS.flatMap (fun pat =>
      (matcher pat c.message).map
        (fun ref => { commit_id := c.hexsha, type := pat, reference := ref })))
    ++ (if WHY_KEYWORDS.any (fun k => pyContains (pyLower c.message) k) then
          [{ commit_id := c.hexsha, type := "why_marker", reference := "1" }]
        else [])

/-- The three in-memory row buffers of one `GitIndexer.index` run. -/
structure Buffers where
  rows_commit_files : List CommitFileRow
  rows_complex : List ComplexityRow
  rows_features : List FeatureRow
deriving Repr, DecidableEq

/-- Lookup in `c.stats.files.get(path_eff, default insertions 0 and
deletions 0)`: the stats dictionary is keyed by strings, so a missing or
NULL effective path yields the default. -/
def statsGet (stats : List (String × Int × Int)) (p : Option String) : Int × Int :=
  match p with
  | none => (0, 0)
  | some s =>
    match stats.find? (fun e => decide (e.1 = s)) with
    | some e => (e.2.1, e.2.2)
    | none => (0, 0)

/-- The effective path of a diff entry, exactly the source line
`path_eff = new_path if change_type != 'D' else old_path` (with
`change_type = d.change_type.upper()`). -/
def effPath (e : DiffEntry) : Option String :=
  if pyUpper e.change_type ≠ "D" then e.b_path else e.a_path

/-- The `is_binary` flag the indexer stores:
`1 if d.b_blob is not None and d.b_blob.is_binary else 0`. -/
def isBinaryFlag (e : DiffEntry) : Nat :=
  match e.b_blob with
  | some b => if b.is_binary then 1 else 0
  | none => 0

/-- The commit_files row the indexer buffers for one diff entry, given
the file id `upsert_file` returned for the effective path: line counts
come from `c.stats.files` keyed by the effective path, defaulting to
zero. -/
def cfRowFor (c : CommitRec) (e : DiffEntry) (file_id : Nat) : CommitFileRow :=
  { commit_id := c.hexsha, file_id := file_id,
    additions := some (statsGet c.stats (effPath e)).1,
    deletions := some (statsGet c.stats (effPath e)).2,
    change_type := pyUpper e.change_type,
    old_path := e.a_path, new_path := e.b_path,
    is_binary := isBinaryFlag e }

/-- The complexity rows (zero or one) the indexer buffers for one diff
entry: only for a non-deleted entry with a non-binary post-change blob,
and only when the analyzer neither raises (the per-file try/except
swallows the exception) nor returns a falsy result (which is all the
fallback stub ever returns when lizard is missing — note the source's
guard `analyze_code_string is not None` is always true, since both of
the import branches bind a function).  On success the row stores the
reported nloc, the summed per-function cyclomatic complexity and the
function count. -/
def complexityRowsFor (analyzer : Analyzer) (c : CommitRec) (e : DiffEntry)
    (file_id : Nat) : List ComplexityRow :=
  match e.b_blob with
  | some b =>
    if pyUpper e.change_type ≠ "D" ∧ b.is_binary = false then
      match analyzer (effPath e) b.data with
      | Except.error _ => []
      | Except.ok none => []
      | Except.ok (some r) =>
        [{ file_id := file_id, commit_id := c.hexsha, nloc := r.nloc,
           ccn := r.function_ccns.sum, functions := r.function_ccns.length }]
    else []
  | none => []

/-- The body of the inner `for d in diffs` loop of `GitIndexer.index`:
resolve the file id with `upsert_file` on the effective path (this is the
only database access of the loop body; everything else only appends to
the in-memory buffers), buffer the commit_files row, and buffer the
complexity row when the entry yields one. -/
def processDiffEntry (analyzer : Analyzer) (c : CommitRec) (st : Conn × Buffers)
    (e : DiffEntry) : Conn × Buffers :=
  let res := upsert_file st.1 (effPath e)
  (res.2,
    { st.2 with
      rows_commit_files := st.2.rows_commit_files ++ [cfRowFor c e res.1],
      rows_complex := st.2.rows_complex ++ complexityRowsFor analyzer c e res.1 })

/-- The body of the outer `for c in commits` loop of the diff pass:
process every diff entry, buffer the commit's feature rows, then run the
three independent threshold flushes (commit_files, complexity, features,
in that order), each of which bulk-inserts and clears its buffer when the
buffer has reached its threshold. -/
def processCommit (analyzer : Analyzer) (matcher : String → String → List String)
    (tcf tcx tf : Nat) (st : Conn × Buffers) (c : CommitRec) : Conn × Buffers :=
  let st := c.diffs.foldl (processDiffEntry analyzer c) st
  let conn := st.1
  let bufs := st.2
  let bufs := { bufs with rows_features := bufs.rows_features ++ featureRows matcher c }
  let p1 : Conn × Buffers :=
    if tcf ≤ bufs.rows_commit_files.length then
      (bulk_insert_commit_files conn bufs.rows_commit_files,
        { bufs with rows_commit_files := [] })
    else (conn, bufs)
  let conn := p1.1
  let bufs := p1.2
  let p2 : Conn × Buffers :=
    if tcx ≤ bufs.rows_complex.length then
      (bulk_insert_complexity conn bufs.rows_complex, { bufs with rows_complex := [] })
    else (conn, bufs)
  let conn := p2.1
  let bufs := p2.2
  let p3 : Conn × Buffers :=
    if tf ≤ bufs.rows_features.length then
      (bulk_insert_features conn bufs.rows_features, { bufs with rows_features := [] })
    else (conn, bufs)
  p3

/-- Model of `GitIndexer.index`, with the three flush thresholds as
parameters (the source hard-codes 1000 / 500 / 1000; see `index`).
Sequence of the source: connect and `init_db`, `set_meta` of the repo
directory (that first connection is then discarded), build the commit
metadata rows, open a fresh connection, bulk-insert the commit rows and
commit, run the diff pass over all commits with periodic flushes, then
flush every non-empty buffer. -/
def indexWith (analyzer : Analyzer) (matcher : String → String → List String)
    (tcf tcx tf : Nat) (repoDir : String) (cs : List CommitRec) (db0 : DB) : Conn :=
  let db1 := set_meta (init_db db0) "repo_dir" repoDir
  let rows_commits : List CommitRow := cs.map (fun c =>
    { id := c.hexsha, author_name := c.author_name, author_email := c.author_email,
      authored_date := c.authored_date, message := c.message })
  let conn := connect db1
  let conn := bulk_insert_commits conn rows_commits
  let st := cs.foldl (processCommit analyzer matcher tcf tcx tf)
    (conn, { rows_commit_files := [], rows_complex := [], rows_features := [] })
  let conn := st.1
  let bufs := st.2
  let conn :=
    if bufs.rows_commit_files ≠ [] then bulk_insert_commit_files conn bufs.rows_commit_files
    else conn
  let conn :=
    if bufs.rows_complex ≠ [] then bulk_insert_complexity conn bufs.rows_complex else conn
  let conn :=
    if bufs.rows_features ≠ [] then bulk_insert_features conn bufs.rows_features else conn
  conn

/-- `GitIndexer.index` with the thresholds hard-coded in the source. -/
def index (analyzer : Analyzer) (matcher : String → String → List String)
    (repoDir : String) (cs : List CommitRec) (db0 : DB) : Conn :=
  indexWith analyzer matcher 1000 500 1000 repoDir cs db0

/-- Concrete analyzer that always succeeds, for concrete runs. -/
def exAnalyzer : Analyzer := fun _ _ => Except.ok (some { nloc := 5, function_ccns := [2] })

/-- Concrete analyzer modelling the unavailable capability: the fallback
stub of `git_indexer.py` always returns None. -/
def exAnalyzerAbsent : Analyzer := fun _ _ => Except.ok none

/-- Concrete regex engine returning no matches. -/
def exMatcher : String → String → List String := fun _ _ => []

/-- Concrete non-binary post-change blob. -/
def exBlobText : Blob := { is_binary := false, data := "x" }

/-- Concrete binary post-change blob. -/
def exBlobBin : Blob := { is_binary := true, data := "y" }

/-- Concrete modified-file diff entry on path `p` with post-change blob `b`. -/
def exEntryM (p : String) (b : Blob) : DiffEntry :=
  { change_type := "M", a_path := some p, b_path := some p, b_blob := some b }

/-- Concrete deletion diff entry: pre-change path present, no post-change
path or blob. -/
def exEntryDel : DiffEntry :=
  { change_type := "D", a_path := some "old", b_path := none, b_blob := none }

/-- Concrete commit touching paths a (analyzable), b and c (binary). -/
def exC1 : CommitRec :=
  { hexsha := "h1", author_name := "n", author_email := "e@x", authored_date := 10,
    message := "",
    diffs := [exEntryM "a" exBlobText, exEntryM "b" exBlobBin, exEntryM "c" exBlobBin],
    stats := [("a", 4, 2)] }

/-- Concrete second commit touching path a again, with a binary blob. -/
def exC2 : CommitRec :=
  { hexsha := "h2", author_name := "n", author_email := "e@x", authored_date := 20,
    message := "", diffs := [exEntryM "a" exBlobBin], stats := [] }

/-- Empty buffer triple. -/
def exBufs0 : Buffers := { rows_commit_files := [], rows_complex := [], rows_features := [] }

/-- Concrete commit row, for store-level examples. -/
def exCommitRow : CommitRow :=
  { id := "h1", author_name := "n", author_email := "a@x", authored_date := 5, message := "m" }

/-- Concrete second commit row by a different author. -/
def exCommitRow2 : CommitRow :=
  { id := "h2", author_name := "n2", author_email := "b@x", authored_date := 9, message := "m2" }

/-- Concrete change record of commit h1 on file 1. -/
def exCfRow : CommitFileRow :=
  { commit_id := "h1", file_id := 1, additions := some 3, deletions := some 1,
    change_type := "A", old_path := some "p", new_path := some "p", is_binary := 0 }

/-- Concrete change record of commit h2 on file 1. -/
def exCfRow2 : CommitFileRow :=
  { commit_id := "h2", file_id := 1, additions := some 2, deletions := some 0,
    change_type := "M", old_path := some "p", new_path := some "p", is_binary := 0 }

/-- Concrete populated store: two commits by different authors touching
file 1. -/
def exStore : DB :=
  { DB.empty with commits := [exCommitRow, exCommitRow2], commit_files := [exCfRow, exCfRow2] }

/-- The store after a first successful aggregation run on `exStore`. -/
def exStoreAfterFirstRun : DB := compute_ownership exStore

/-- The aggregated ownership row of file 1 and author a at x in
`exStore`. -/
def exOwnRowA : OwnershipRow :=
  ownershipRowFor (compute_ownership_after_delete exStore) (1, "a@x")

/-- C1. The ownership recomputation is not atomic: `compute_ownership`
executes `DELETE FROM ownership` and `conn.commit()` in one transaction
and only then runs the aggregation insert in a second transaction, so
after a first successful aggregation run (`exStoreAfterFirstRun` has a
non-empty ownership table) the committed intermediate state has an empty
ownership table — a failure of the aggregation step at that point leaves
the table emptied, and a reader at that point observes it emptied, not in
its prior complete state. -/
theorem ownership_delete_committed_before_reinsert :
    exStoreAfterFirstRun.ownership ≠ []
      ∧ (compute_ownership_after_delete exStoreAfterFirstRun).ownership = [] := by
  decide

/-- C9. `upsert_file` does not return the existing id for an
already-present path: the ignored `INSERT OR IGNORE` leaves
`cur.lastrowid` at the connection's previous successful insert rowid, so
after inserting paths a (id 1) and b (id 2), a second call for a returns
2, not 1 — two calls with the same path string return different ids, and
the id of a different path is returned. -/
theorem upsert_file_stale_lastrowid :
    (upsert_file (connect DB.empty) (some "a")).1 = 1
      ∧ (upsert_file (upsert_file (connect DB.empty) (some "a")).2 (some "b")).1 = 2
      ∧ (upsert_file (upsert_file (upsert_file (connect DB.empty) (some "a")).2
          (some "b")).2 (some "a")).1 = 2 := by
  decide

/-- C8. The flush thresholds are not correctness-neutral: on the two
commits `exC1, exC2` the run with complexity threshold 1 persists
commit_files file ids [1, 2, 3, 1] while the source's batched run
(thresholds 1000/500/1000, `index`) persists [1, 2, 3, 3] — the
complexity flush moves the connection's last-insert rowid, which the
stale-`lastrowid` path of `upsert_file` then returns for the repeated
path a of exC2. -/
theorem flush_threshold_alters_change_rows :
    ((indexWith exAnalyzer exMatcher 1000 1 1000 "rd" [exC1, exC2]
        DB.empty).db.commit_files.map CommitFileRow.file_id = [1, 2, 3, 1])
      ∧ ((index exAnalyzer exMatcher "rd" [exC1, exC2]
          DB.empty).db.commit_files.map CommitFileRow.file_id = [1, 2, 3, 3]) := by
  decide

/-- C7. Analyzer presence is not output-neutral for the CommitFile rows:
with complexity flush threshold 1 (the mechanism needs one full
complexity buffer at a commit boundary; with the source's threshold 500
the same divergence needs 500 buffered samples), the run with the
analyzer available persists commit_files file ids [1, 2, 3, 1] while the
run with the capability absent persists [1, 2, 3, 3], because the
complexity flush of the first run moves the connection's last-insert
rowid, which the stale-`lastrowid` path of `upsert_file` then returns
for the repeated path a of exC2.  The absent-capability run does produce
zero complexity rows. -/
theorem analyzer_presence_alters_change_rows :
    ((indexWith exAnalyzer exMatcher 1000 1 1000 "rd" [exC1, exC2]
        DB.empty).db.commit_files.map CommitFileRow.file_id = [1, 2, 3, 1])
      ∧ ((indexWith exAnalyzerAbsent exMatcher 1000 1 1000 "rd" [exC1, exC2]
          DB.empty).db.commit_files.map CommitFileRow.file_id = [1, 2, 3, 3])
      ∧ (indexWith exAnalyzerAbsent exMatcher 1000 1 1000 "rd" [exC1, exC2]
          DB.empty).db.complexity = [] := by
  decide

/-- C2. For every diff entry the indexer processes, the stored change row
resolves its file id by `upsert_file` on the pre-change path exactly when
the (upcased) change type is D, and on the post-change path otherwise,
and looks its line counts up in the commit's stats under that same
path. -/
theorem change_row_uses_effective_path (analyzer : Analyzer) (c : CommitRec)
    (conn : Conn) (bufs : Buffers) (e : DiffEntry) :
    ∃ r, (processDiffEntry analyzer c (conn, bufs) e).2.rows_commit_files
        = bufs.rows_commit_files ++ [r]
      ∧ (pyUpper e.change_type = "D" →
          r.file_id = (upsert_file conn e.a_path).1
            ∧ r.additions = some (statsGet c.stats e.a_path).1
            ∧ r.deletions = some (statsGet c.stats e.a_path).2)
      ∧ (pyUpper e.change_type ≠ "D" →
          r.file_id = (upsert_file conn e.b_path).1
            ∧ r.additions = some (statsGet c.stats e.b_path).1
            ∧ r.deletions = some (statsGet c.stats e.b_path).2) := by
  refine ⟨cfRowFor c e (upsert_file conn (effPath e)).1, rfl, ?_, ?_⟩
  · intro hD
    have hp : effPath e = e.a_path := by simp [effPath, hD]
    simp [cfRowFor, hp]
  · intro hD
    have hp : effPath e = e.b_path := by simp [effPath, hD]
    simp [cfRowFor, hp]

/-- C2 witness: the deletion entry `exEntryDel` resolves and looks up by
its pre-change path. -/
theorem change_row_uses_effective_path_witness :
    ∃ r, (processDiffEntry exAnalyzer exC1 (connect DB.empty, exBufs0)
          exEntryDel).2.rows_commit_files
        = exBufs0.rows_commit_files ++ [r]
      ∧ r.file_id = (upsert_file (connect DB.empty) exEntryDel.a_path).1
      ∧ r.additions = some (statsGet exC1.stats exEntryDel.a_path).1
      ∧ r.deletions = some (statsGet exC1.stats exEntryDel.a_path).2 := by
  obtain ⟨r, h1, h2, h3⟩ :=
    change_row_uses_effective_path exAnalyzer exC1 (connect DB.empty) exBufs0 exEntryDel
  obtain ⟨ha, hb, hc⟩ := h2 (by decide)
  exact ⟨r, h1, ha, hb, hc⟩

/-- C3. For every diff entry the indexer processes, the stored binary
flag is 1 iff the post-change blob exists and is classified binary; in
particular a deletion entry (which per the VCS contract carries no
post-change blob) is never marked binary, and an entry whose post-change
blob is binary contributes no complexity row. -/
theorem binary_flag_iff_post_blob_binary (analyzer : Analyzer) (c : CommitRec)
    (conn : Conn) (bufs : Buffers) (e : DiffEntry) :
    ∃ r, (processDiffEntry analyzer c (conn, bufs) e).2.rows_commit_files
        = bufs.rows_commit_files ++ [r]
      ∧ (r.is_binary = 1 ↔ ∃ b, e.b_blob = some b ∧ b.is_binary = true)
      ∧ (pyUpper e.change_type = "D" → e.b_blob = none → r.is_binary = 0)
      ∧ (∀ b, e.b_blob = some b → b.is_binary = true →
          (processDiffEntry analyzer c (conn, bufs) e).2.rows_complex
            = bufs.rows_complex) := by
  refine ⟨cfRowFor c e (upsert_file conn (effPath e)).1, rfl, ?_, ?_, ?_⟩
  · cases hb : e.b_blob with
    | none => simp [cfRowFor, isBinaryFlag, hb]
    | some b =>
      cases hbb : b.is_binary with
      | false => simp [cfRowFor, isBinaryFlag, hb, hbb]
      | true => simp [cfRowFor, isBinaryFlag, hb, hbb]
  · intro _ hnone
    simp [cfRowFor, isBinaryFlag, hnone]
  · intro b hb hbb
    have hstep : (processDiffEntry analyzer c (conn, bufs) e).2.rows_complex
        = bufs.rows_complex
            ++ complexityRowsFor analyzer c e (upsert_file conn (effPath e)).1 := rfl
    rw [hstep]
    simp [complexityRowsFor, hb, hbb]

/-- C3 witness: a binary modification entry gets binary flag 1 and no
complexity row; membership facts are discharged concretely. -/
theorem binary_flag_iff_post_blob_binary_witness :
    ∃ r, (processDiffEntry exAnalyzer exC2 (connect DB.empty, exBufs0)
          (exEntryM "a" exBlobBin)).2.rows_commit_files
        = exBufs0.rows_commit_files ++ [r]
      ∧ r.is_binary = 1
      ∧ (processDiffEntry exAnalyzer exC2 (connect DB.empty, exBufs0)
          (exEntryM "a" exBlobBin)).2.rows_complex = exBufs0.rows_complex := by
  obtain ⟨r, h1, h2, h3, h4⟩ :=
    binary_flag_iff_post_blob_binary exAnalyzer exC2 (connect DB.empty) exBufs0
      (exEntryM "a" exBlobBin)
  refine ⟨r, h1, ?_, h4 exBlobBin (by decide) (by decide)⟩
  exact h2.mpr ⟨exBlobBin, by decide, by decide⟩

/-- Helper: one `INSERT OR IGNORE` commit row either leaves the commits
table unchanged (duplicate primary key) or appends the row, in which case
no stored commit had its id. -/
theorem insert_commit_row_commits (conn : Conn) (r : CommitRow) :
    (insert_commit_row conn r).db.commits = conn.db.commits
      ∨ ((insert_commit_row conn r).db.commits = conn.db.commits ++ [r]
          ∧ ∀ c ∈ conn.db.commits, c.id ≠ r.id) := by
  unfold insert_commit_row
  split
  · left; rfl
  · right
    rename_i h
    refine ⟨rfl, ?_⟩
    intro c hc
    simp only [List.any_eq_true, decide_eq_true_eq] at h
    intro hid
    exact h ⟨c, hc, hid⟩

/-- Helper: stored commit rows survive an `INSERT OR IGNORE`. -/
theorem mem_commits_insert (conn : Conn) (r : CommitRow) {x : CommitRow}
    (h : x ∈ conn.db.commits) : x ∈ (insert_commit_row conn r).db.commits := by
  rcases insert_commit_row_commits conn r with h2 | ⟨h2, _⟩ <;> rw [h2] <;>
    simp [h]

/-- Helper: stored commit rows survive a whole bulk insert. -/
theorem mem_commits_bulk (rows : List CommitRow) : ∀ (conn : Conn) {x : CommitRow},
    x ∈ conn.db.commits → x ∈ (bulk_insert_commits conn rows).db.commits := by
  induction rows with
  | nil => intro conn x h; exact h
  | cons a l ih => intro conn x h; exact ih _ (mem_commits_insert conn a h)

/-- Helper: after inserting row `r`, some stored commit has id `r.id`. -/
theorem exists_id_insert (conn : Conn) (r : CommitRow) :
    ∃ c ∈ (insert_commit_row conn r).db.commits, c.id = r.id := by
  unfold insert_commit_row
  split
  · rename_i h
    simp only [List.any_eq_true, decide_eq_true_eq] at h
    obtain ⟨c, hc, hid⟩ := h
    exact ⟨c, hc, hid⟩
  · exact ⟨r, by simp, rfl⟩

/-- Helper: after a bulk insert, every batch row's id is stored. -/
theorem exists_id_bulk (rows : List CommitRow) : ∀ (conn : Conn), ∀ r ∈ rows,
    ∃ c ∈ (bulk_insert_commits conn rows).db.commits, c.id = r.id := by
  induction rows with
  | nil => intro _ _ h; cases h
  | cons a l ih =>
    intro conn r hr
    rcases List.mem_cons.mp hr with h | hmem
    · subst h
      obtain ⟨c, hc, hid⟩ := exists_id_insert conn r
      exact ⟨c, mem_commits_bulk l _ hc, hid⟩
    · exact ih _ r hmem

/-- Helper: `INSERT OR IGNORE` preserves primary-key uniqueness of the
commits table. -/
theorem nodup_commits_insert (conn : Conn) (r : CommitRow)
    (h : (conn.db.commits.map CommitRow.id).Nodup) :
    ((insert_commit_row conn r).db.commits.map CommitRow.id).Nodup := by
  rcases insert_commit_row_commits conn r with h2 | ⟨h2, hne⟩
  · rw [h2]; exact h
  · rw [h2, List.map_append]
    refine List.Nodup.append h (List.nodup_singleton _) ?_
    intro x hx hxy
    simp only [List.map_cons, List.map_nil, List.mem_singleton] at hxy
    obtain ⟨c, hc, hcid⟩ := List.mem_map.mp hx
    exact hne c hc (hcid.trans hxy)

/-- Helper: a bulk insert preserves primary-key uniqueness. -/
theorem nodup_commits_bulk (rows : List CommitRow) : ∀ (conn : Conn),
    (conn.db.commits.map CommitRow.id).Nodup →
      ((bulk_insert_commits conn rows).db.commits.map CommitRow.id).Nodup := by
  induction rows with
  | nil => intro _ h; exact h
  | cons a l ih => intro conn h; exact ih _ (nodup_commits_insert conn a h)

/-- C4. Bulk-inserting the same commit rows twice into any store whose
commits table satisfies its primary-key uniqueness never fails (the
insertion is total, `INSERT OR IGNORE` skipping duplicates), preserves
uniqueness, and leaves exactly one commit-identity row per batch row's
hash. -/
theorem reindex_commit_rows_unique (conn : Conn) (rows : List CommitRow)
    (h : (conn.db.commits.map CommitRow.id).Nodup) :
    (((bulk_insert_commits (bulk_insert_commits conn rows) rows).db.commits.map
        CommitRow.id).Nodup)
      ∧ ∀ r ∈ rows,
          ((bulk_insert_commits (bulk_insert_commits conn rows) rows).db.commits.map
              CommitRow.id).count r.id = 1 := by
  have hn2 := nodup_commits_bulk rows _ (nodup_commits_bulk rows conn h)
  refine ⟨hn2, ?_⟩
  intro r hr
  obtain ⟨c, hc, hcid⟩ := exists_id_bulk rows (bulk_insert_commits conn rows) r hr
  have hmem : r.id ∈ ((bulk_insert_commits (bulk_insert_commits conn rows)
      rows).db.commits.map CommitRow.id) :=
    hcid ▸ List.mem_map_of_mem CommitRow.id hc
  exact List.count_eq_one_of_mem hn2 hmem

/-- C4 witness: indexing the single commit row exCommitRow twice into a
fresh store leaves exactly one row for its hash. -/
theorem reindex_commit_rows_unique_witness :
    ((bulk_insert_commits (bulk_insert_commits (connect DB.empty) [exCommitRow])
        [exCommitRow]).db.commits.map CommitRow.id).count exCommitRow.id = 1 :=
  (reindex_commit_rows_unique (connect DB.empty) [exCommitRow] (by decide)).2
    exCommitRow (by decide)

/-- Helper: pattern-extracted feature rows carry the pattern string as
their type, so none of them is a why_marker row when the pattern string
differs from why_marker. -/
theorem filter_why_of_map (hexsha pat : String) (refs : List String)
    (h : pat ≠ "why_marker") :
    ((refs.map (fun ref =>
        ({ commit_id := hexsha, type := pat, reference := ref } : FeatureRow))).filter
      (fun r => decide (r.type = "why_marker"))) = [] := by
  induction refs with
  | nil => rfl
  | cons a l ih => simp [List.filter_cons, h, ih]

/-- Helper: no pattern of a vocabulary avoiding the why_marker tag
contributes a why_marker row. -/
theorem filter_why_flatMap (hexsha msg : String)
    (matcher : String → String → List String) (pats : List String)
    (h : ∀ pat ∈ pats, pat ≠ "why_marker") :
    ((pats.flatMap (fun pat => (matcher pat msg).map (fun ref =>
        ({ commit_id := hexsha, type := pat, reference := ref } : FeatureRow)))).filter
      (fun r => decide (r.type = "why_marker"))) = [] := by
  induction pats with
  | nil => rfl
  | cons p ps ih =>
    have hp : p ≠ "why_marker" := h p (List.mem_cons_self p ps)
    have hps : ∀ pat ∈ ps, pat ≠ "why_marker" := fun pat hm => h pat (List.mem_cons_of_mem p hm)
    simp only [List.flatMap_cons, List.filter_append, filter_why_of_map hexsha p _ hp,
      ih hps, List.append_nil]

/-- C6. For every commit and every behaviour of the regex engine, the
feature rows the indexer buffers for that commit contain exactly one
why_marker row when the lower-cased message contains at least one word of
the rationale vocabulary, and none otherwise — never one per keyword. -/
theorem why_marker_row_emitted_at_most_once
    (matcher : String → String → List String) (c : CommitRec) :
    ((featureRows matcher c).filter (fun r => decide (r.type = "why_marker"))).length
      = if WHY_KEYWORDS.any (fun k => pyContains (pyLower c.message) k) then 1 else 0 := by
  unfold featureRows
  rw [List.filter_append, List.length_append]
  rw [filter_why_flatMap c.hexsha c.message matcher FEATURE_PATTERNS (by decide)]
  cases hw : WHY_KEYWORDS.any (fun k => pyContains (pyLower c.message) k) with
  | false => simp [hw]
  | true => simp [hw, List.filter_cons]

/-- Helper: a left fold with `min` never exceeds its seed. -/
theorem foldl_min_le_self (d : Int) (ds : List Int) : ds.foldl min d ≤ d := by
  induction ds generalizing d with
  | nil => simp
  | cons a l ih => exact le_trans (ih (min d a)) (min_le_left d a)

/-- Helper: a left fold with `max` never drops below its seed. -/
theorem self_le_foldl_max (d : Int) (ds : List Int) : d ≤ ds.foldl max d := by
  induction ds generalizing d with
  | nil => simp
  | cons a l ih => exact le_trans (le_max_left d a) (ih (max d a))

/-- Helper: membership in the ownership join is membership of the change
row and of the commit row with matching primary key. -/
theorem mem_sqlJoin {db : DB} {rc : CommitFileRow × CommitRow} :
    rc ∈ sqlJoin db
      ↔ rc.1 ∈ db.commit_files ∧ rc.2 ∈ db.commits ∧ rc.2.id = rc.1.commit_id := by
  constructor
  · intro h
    simp only [sqlJoin, List.mem_flatMap, List.mem_map, List.mem_filter,
      decide_eq_true_eq] at h
    obtain ⟨cf, hcf, c, ⟨hc, hid⟩, heq⟩ := h
    cases heq
    exact ⟨hcf, hc, hid⟩
  · intro h
    simp only [sqlJoin, List.mem_flatMap, List.mem_map, List.mem_filter, decide_eq_true_eq]
    exact ⟨rc.1, h.1, rc.2, ⟨h.2.1, h.2.2⟩, rfl⟩

/-- Helper: membership in one ownership group. -/
theorem mem_ownershipGroup {db : DB} {k : Nat × String} {rc : CommitFileRow × CommitRow} :
    rc ∈ ownershipGroup db k
      ↔ rc ∈ sqlJoin db ∧ rc.1.file_id = k.1 ∧ rc.2.author_email = k.2 := by
  simp [ownershipGroup, List.mem_filter, decide_eq_true_eq, and_assoc]

/-- C10. Every row `compute_ownership` produces satisfies the unstated
internal invariants of the Ownership table: a positive commit count,
non-negative aggregated line counts (given non-negative stored
addition/deletion counts), and a first-commit timestamp not after the
last-commit timestamp. -/
theorem ownership_rows_internally_consistent (db : DB)
    (hpos : ∀ cf ∈ db.commit_files, 0 ≤ cf.additions.getD 0 ∧ 0 ≤ cf.deletions.getD 0) :
    ∀ r ∈ (compute_ownership db).ownership,
      1 ≤ r.commits ∧ 0 ≤ r.lines_added ∧ 0 ≤ r.lines_deleted
        ∧ ∃ f l, r.first_commit = some f ∧ r.last_commit = some l ∧ f ≤ l := by
  intro r hr
  have hr2 : r ∈ ownershipAggRows (compute_ownership_after_delete db) := hr
  obtain ⟨k, hk, hrk⟩ := List.mem_map.mp hr2
  subst hrk
  simp only [ownershipKeys] at hk
  obtain ⟨rc, hrc, hrck⟩ := List.mem_map.mp (List.mem_dedup.mp hk)
  subst hrck
  have hrcg : rc ∈ ownershipGroup (compute_ownership_after_delete db)
      (rc.1.file_id, rc.2.author_email) :=
    mem_ownershipGroup.mpr ⟨hrc, rfl, rfl⟩
  have hsub : ∀ x ∈ ownershipGroup (compute_ownership_after_delete db)
      (rc.1.file_id, rc.2.author_email), x.1 ∈ db.commit_files := by
    intro x hx
    exact (mem_sqlJoin.mp (mem_ownershipGroup.mp hx).1).1
  refine ⟨?_, ?_, ?_, ?_⟩
  · simp only [ownershipRowFor]
    have h1 : rc.1.commit_id ∈ ((ownershipGroup (compute_ownership_after_delete db)
        (rc.1.file_id, rc.2.author_email)).map (fun x => x.1.commit_id)).dedup :=
      List.mem_dedup.mpr (List.mem_map_of_mem _ hrcg)
    exact List.length_pos_of_mem h1
  · simp only [ownershipRowFor]
    refine List.sum_nonneg ?_
    intro x hx
    obtain ⟨rc2, hrc2, hval⟩ := List.mem_map.mp hx
    exact hval ▸ (hpos rc2.1 (hsub rc2 hrc2)).1
  · simp only [ownershipRowFor]
    refine List.sum_nonneg ?_
    intro x hx
    obtain ⟨rc2, hrc2, hval⟩ := List.mem_map.mp hx
    exact hval ▸ (hpos rc2.1 (hsub rc2 hrc2)).2
  · simp only [ownershipRowFor]
    have hmem : rc.2.authored_date ∈ ((ownershipGroup (compute_ownership_after_delete db)
        (rc.1.file_id, rc.2.author_email)).map (fun x => x.2.authored_date)) :=
      List.mem_map_of_mem _ hrcg
    cases hdates : ((ownershipGroup (compute_ownership_after_delete db)
        (rc.1.file_id, rc.2.author_email)).map (fun x => x.2.authored_date)) with
    | nil => rw [hdates] at hmem; cases hmem
    | cons d ds =>
      exact ⟨ds.foldl min d, ds.foldl max d, rfl, rfl,
        le_trans (foldl_min_le_self d ds) (self_le_foldl_max d ds)⟩

/-- C10 witness: the ownership row of file 1 by author a at x in the
concrete store `exStore` satisfies all the invariants. -/
theorem ownership_rows_internally_consistent_witness :
    1 ≤ exOwnRowA.commits ∧ 0 ≤ exOwnRowA.lines_added ∧ 0 ≤ exOwnRowA.lines_deleted
      ∧ ∃ f l, exOwnRowA.first_commit = some f ∧ exOwnRowA.last_commit = some l ∧ f ≤ l :=
  ownership_rows_internally_consistent exStore (by decide) exOwnRowA (by decide)

/-- Helper: filtering a mapped list is mapping the filtered list. -/
theorem filter_map_comm {α β : Type} (f : α → β) (p : β → Bool) (l : List α) :
    (l.map f).filter p = (l.filter (fun a => p (f a))).map f := by
  induction l with
  | nil => rfl
  | cons a t ih =>
    cases h : p (f a) with
    | false => simp [List.filter_cons, h, ih]
    | true => simp [List.filter_cons, h, ih]

/-- C5. After `compute_ownership`, for every file id the `commits`
column summed over that file's ownership rows equals the number of
distinct commit ids having a change record for that file, provided the
commits table satisfies its primary-key uniqueness and every such commit
id exists in the commits table. -/
theorem ownership_commit_totals (db : DB) (fid : Nat)
    (hnodup : (db.commits.map CommitRow.id).Nodup)
    (hex : ∀ cf ∈ db.commit_files, cf.file_id = fid →
        cf.commit_id ∈ db.commits.map CommitRow.id) :
    (((compute_ownership db).ownership.filter
        (fun r => decide (r.file_id = fid))).map OwnershipRow.commits).sum
      = (((db.commit_files.filter (fun cf => decide (cf.file_id = fid))).map
          CommitFileRow.commit_id).dedup).length := by
  classical
  -- work over the committed mid-state, whose commits and commit_files
  -- tables are definitionally those of db
  show (((ownershipAggRows (compute_ownership_after_delete db)).filter
        (fun r => decide (r.file_id = fid))).map OwnershipRow.commits).sum = _
  set db2 := compute_ownership_after_delete db with hdb2
  have hcf : db2.commit_files = db.commit_files := rfl
  have hcm : db2.commits = db.commits := rfl
  -- the filtered aggregate rows are the rows of the keys with this file id
  have h1 : ((ownershipAggRows db2).filter (fun r => decide (r.file_id = fid)))
      = ((ownershipKeys db2).filter (fun k => decide (k.1 = fid))).map
          (ownershipRowFor db2) := by
    show (((ownershipKeys db2).map (ownershipRowFor db2)).filter
        (fun r => decide (r.file_id = fid))) = _
    rw [filter_map_comm]
    rfl
  rw [h1, List.map_map]
  set K : List (Nat × String) := (ownershipKeys db2).filter (fun k => decide (k.1 = fid))
    with hK
  have hKnodup : K.Nodup := List.Nodup.filter _ (List.nodup_dedup _)
  have hsum : K.toFinset.sum (OwnershipRow.commits ∘ ownershipRowFor db2)
      = (K.map (OwnershipRow.commits ∘ ownershipRowFor db2)).sum :=
    List.sum_toFinset _ hKnodup
  rw [← hsum]
  -- each key contributes the cardinality of its distinct-commit set
  have h2 : ∀ k ∈ K.toFinset,
      (OwnershipRow.commits ∘ ownershipRowFor db2) k
        = (((ownershipGroup db2 k).map (fun rc => rc.1.commit_id)).toFinset).card := by
    intro k _
    exact (List.card_toFinset _).symm
  rw [Finset.sum_congr rfl h2]
  -- key facts about members of K
  have hKmem : ∀ k : Nat × String, k ∈ K.toFinset →
      k.1 = fid ∧ ∃ rc ∈ sqlJoin db2, rc.1.file_id = k.1 ∧ rc.2.author_email = k.2 := by
    intro k hk
    rw [List.mem_toFinset, hK, List.mem_filter] at hk
    obtain ⟨hk1, hk2⟩ := hk
    simp only [decide_eq_true_eq] at hk2
    refine ⟨hk2, ?_⟩
    simp only [ownershipKeys, List.mem_dedup, List.mem_map] at hk1
    obtain ⟨rc, hrc, hrck⟩ := hk1
    exact ⟨rc, hrc, by rw [← hrck], by rw [← hrck]⟩
  -- members of a group with a given commit id determine the commit row
  have hcommit : ∀ (k : Nat × String) (x : String), k ∈ K.toFinset →
      x ∈ ((ownershipGroup db2 k).map (fun rc => rc.1.commit_id)).toFinset →
      ∃ c ∈ db.commits, c.id = x ∧ c.author_email = k.2 := by
    intro k x _ hx
    rw [List.mem_toFinset, List.mem_map] at hx
    obtain ⟨rc, hrc, hrcx⟩ := hx
    obtain ⟨hj, _, hauth⟩ := mem_ownershipGroup.mp hrc
    obtain ⟨_, hc2, hcid⟩ := mem_sqlJoin.mp hj
    exact ⟨rc.2, hc2, by rw [hcid, hrcx], hauth⟩
  -- the per-author distinct-commit sets are pairwise disjoint
  have hdisj : ∀ k1 ∈ K.toFinset, ∀ k2 ∈ K.toFinset, k1 ≠ k2 →
      Disjoint (((ownershipGroup db2 k1).map (fun rc => rc.1.commit_id)).toFinset)
        (((ownershipGroup db2 k2).map (fun rc => rc.1.commit_id)).toFinset) := by
    intro k1 hk1 k2 hk2 hne
    rw [Finset.disjoint_left]
    intro x hx1 hx2
    obtain ⟨c1, hc1, hc1id, hc1a⟩ := hcommit k1 x hk1 hx1
    obtain ⟨c2, hc2, hc2id, hc2a⟩ := hcommit k2 x hk2 hx2
    have hceq : c1 = c2 :=
      List.inj_on_of_nodup_map hnodup hc1 hc2 (by rw [hc1id, hc2id])
    apply hne
    have hfst : k1.1 = k2.1 := by rw [(hKmem k1 hk1).1, (hKmem k2 hk2).1]
    have hsnd : k1.2 = k2.2 := by rw [← hc1a, ← hc2a, hceq]
    exact Prod.ext hfst hsnd
  rw [← Finset.card_biUnion hdisj]
  -- the union of the per-key distinct-commit sets is the set of all
  -- distinct commit ids touching the file
  have hbiu : (K.toFinset.biUnion
        (fun k => ((ownershipGroup db2 k).map (fun rc => rc.1.commit_id)).toFinset))
      = ((db.commit_files.filter (fun cf => decide (cf.file_id = fid))).map
          CommitFileRow.commit_id).toFinset := by
    apply Finset.ext
    intro x
    constructor
    · intro hx
      obtain ⟨k, hk, hxk⟩ := Finset.mem_biUnion.mp hx
      rw [List.mem_toFinset, List.mem_map] at hxk
      obtain ⟨rc, hrc, hrcx⟩ := hxk
      obtain ⟨hj, hfidk, _⟩ := mem_ownershipGroup.mp hrc
      obtain ⟨hcf1, _, _⟩ := mem_sqlJoin.mp hj
      rw [List.mem_toFinset, List.mem_map]
      refine ⟨rc.1, ?_, hrcx⟩
      rw [List.mem_filter]
      exact ⟨hcf1, by simp [hfidk, (hKmem k hk).1]⟩
    · intro hx
      rw [List.mem_toFinset, List.mem_map] at hx
      obtain ⟨cf, hcf1, hcfx⟩ := hx
      rw [List.mem_filter] at hcf1
      obtain ⟨hcfmem, hcffid⟩ := hcf1
      simp only [decide_eq_true_eq] at hcffid
      obtain ⟨c, hc, hcid⟩ := List.mem_map.mp (hex cf hcfmem hcffid)
      have hj : (cf, c) ∈ sqlJoin db2 := mem_sqlJoin.mpr ⟨hcfmem, hc, hcid⟩
      have hkK : (fid, c.author_email) ∈ K.toFinset := by
        rw [List.mem_toFinset, hK, List.mem_filter]
        constructor
        · simp only [ownershipKeys, List.mem_dedup, List.mem_map]
          exact ⟨(cf, c), hj, by simp [hcffid]⟩
        · simp
      apply Finset.mem_biUnion.mpr
      refine ⟨(fid, c.author_email), hkK, ?_⟩
      rw [List.mem_toFinset, List.mem_map]
      refine ⟨(cf, c), ?_, hcfx⟩
      exact mem_ownershipGroup.mpr ⟨hj, hcffid, rfl⟩
  rw [hbiu]
  exact List.card_toFinset _

/-- C5 witness: in the concrete store `exStore` (two authors, one commit
each, same file), the sum of per-author commit counts for file 1 equals
the two distinct commits touching it. -/
theorem ownership_commit_totals_witness :
    (((compute_ownership exStore).ownership.filter
        (fun r => decide (r.file_id = 1))).map OwnershipRow.commits).sum
      = (((exStore.commit_files.filter (fun cf => decide (cf.file_id = 1))).map
          CommitFileRow.commit_id).dedup).length :=
  ownership_commit_totals exStore 1 (by decide) (by decide)
